import Mathlib

/-!
Shallow embedding of the stagnant-checker repository
(`stagnant_checker_vercel.py`, `file_utils.py`, `slack_bot.py`).

Conventions of the embedding:
* Python dicts that the code treats as ordered string-keyed maps become
  association lists (`List (String × β)`) with Python's assignment
  semantics (`dictSet`: update in place if the key exists, else append).
* Timestamps are natural numbers of epoch seconds; datetime arithmetic is
  carried out in `Int` so that subtraction never truncates.
* The external Slack listing call is a parameter of type
  `Except Unit (List Chan)`: `.error ()` models a `SlackApiError` raised
  by `conversations_list`, `.ok chans` models the concatenation of all
  pages of a successful paginated listing, in page order.
* The key-value store is modelled by parameters: the result of loading the
  cache (`Except Unit Cache`, `.error ()` = the load raised) and a flag
  `saveRaises` saying whether a `save_cache` call raises.  Exceptions that
  the Python code does not catch are modelled by an `.error ()` result of
  the embedded function.
-/

namespace StagnantChecker

/-- Python dict assignment `m[k] = v` on an association list: replace the
value in place if `k` is already a key, otherwise append the new pair. -/
def dictSet {β : Type} (m : List (String × β)) (k : String) (v : β) :
    List (String × β) :=
  match m with
  | [] => [(k, v)]
  | (k', v') :: rest =>
    if k' = k then (k, v) :: rest else (k', v') :: dictSet rest k v

/-- Python `m.get(k)` on an association list (first binding wins, as in a
dict, whose keys are unique). -/
def dictGet {β : Type} (m : List (String × β)) (k : String) : Option β :=
  match m with
  | [] => none
  | (k', v') :: rest => if k' = k then some v' else dictGet rest k

/-- A channel record as returned by the platform listing
(`c["name"]`, `c["id"]`). -/
structure Chan where
  name : String
  id : String
deriving DecidableEq, Repr

/-- The channel-name → channel-ID cache document
(`{"channels": {...}, "last_updated": ts-or-null}`).
`last_updated = none` models the JSON `null` / missing value. -/
structure Cache where
  channels : List (String × String)
  last_updated : Option Nat
deriving DecidableEq, Repr

/-- `CACHE_EXPIRY_HOURS = 24` (`file_utils.py`). -/
def CACHE_EXPIRY_HOURS : Nat := 24

/-- `is_cache_valid` (`file_utils.py` lines 156-172, identical to
`is_cache_valid_redis` in `stagnant_checker_vercel.py` lines 60-68):
falsy `last_updated` means never valid; otherwise the cache is valid iff
`last_updated > now - 24h`. -/
def is_cache_valid (cache : Cache) (now : Nat) : Bool :=
  match cache.last_updated with
  | none => false
  | some t => decide ((now : Int) - CACHE_EXPIRY_HOURS * 3600 < (t : Int))

/-- The result of one `get_channel_id` call that did not raise:
the returned value (`none` = Python `None`), how many full paginated
listings were performed, and the cache document passed to `save_cache`
(`none` if no save happened). -/
structure ResolveOut where
  result : Option String
  listings : Nat
  saved : Option Cache
deriving DecidableEq, Repr

/-- `c["name"] == channel_name` search of the single-lookup loop
(`stagnant_checker_vercel.py` lines 129-150): scan the listing in page
order for the first channel with the requested name; on a hit, write the
one new mapping into the loaded cache and `save_cache` it (leaving
`last_updated` as loaded); a `SlackApiError` is caught and yields `None`.
A raise from `save_cache` is not a `SlackApiError`, so it propagates. -/
def single_lookup (cache : Cache) (channel_name : String)
    (listing : Except Unit (List Chan)) (saveRaises : Bool) :
    Except Unit ResolveOut :=
  match listing with
  | .error _ => .ok ⟨none, 1, none⟩
  | .ok chans =>
    match chans.find? (fun c => c.name = channel_name) with
    | some c =>
      if saveRaises then .error ()
      else
        .ok ⟨some c.id, 1,
          some ⟨dictSet cache.channels channel_name c.id, cache.last_updated⟩⟩
    | none => .ok ⟨none, 1, none⟩

/-- The mapping built by the full-refresh loop
(`channel_mapping[c["name"]] = c["id"]` over every page). -/
def buildMapping (chans : List Chan) : List (String × String) :=
  chans.foldl (fun m c => dictSet m c.name c.id) []

/-- `get_channel_id` (`stagnant_checker_vercel.py` lines 102-150).
* load the cache (an uncaught store exception propagates);
* if the cache is valid and holds a truthy ID for the name, return it
  (no listing, no save);
* if the cache is valid but the ID is missing or falsy, run the
  single-lookup fallback;
* otherwise run the full refresh (`refresh_cache_redis` /
  `refresh_full_cache`): a `SlackApiError` is caught inside the refresh,
  which then returns `None`, so the caller returns `None` without saving;
  on success the refresh saves `{channels := fresh, last_updated := now}`
  (a raise from that save propagates) and the caller returns the fresh
  mapping's entry for the name — except that an empty fresh mapping is
  falsy, in which case the caller returns `None`. -/
def get_channel_id (load : Except Unit Cache) (now : Nat)
    (channel_name : String) (listing : Except Unit (List Chan))
    (saveRaises : Bool) : Except Unit ResolveOut :=
  match load with
  | .error e => .error e
  | .ok cache =>
    if is_cache_valid cache now then
      match dictGet cache.channels channel_name with
      | some cid =>
        if cid ≠ "" then .ok ⟨some cid, 0, none⟩
        else single_lookup cache channel_name listing saveRaises
      | none => single_lookup cache channel_name listing saveRaises
    else
      match listing with
      | .error _ => .ok ⟨none, 1, none⟩
      | .ok chans =>
        let mapping := buildMapping chans
        if saveRaises then .error ()
        else
          .ok ⟨if mapping.isEmpty then none else dictGet mapping channel_name,
            1, some ⟨mapping, some now⟩⟩

/-- A message snapshot: `ts` epoch seconds, `reply_count` possibly absent
(`message.get("reply_count", 0)`). -/
structure Message where
  ts : Nat
  reply_count : Option Nat
deriving DecidableEq, Repr

/-- `message_is_stagnant` (`stagnant_checker_vercel.py` lines 161-166):
the message time is strictly before `now - 2 days` and the message has no
replies (absent `reply_count` defaults to 0). -/
def message_is_stagnant (message : Message) (now : Nat) : Bool :=
  let msg_time : Int := message.ts
  let two_days_ago : Int := (now : Int) - 2 * 86400
  let has_replies : Bool := decide (message.reply_count.getD 0 > 0)
  decide (msg_time < two_days_ago) && !has_replies

/-- The per-channel body of the `run_check` loop
(`stagnant_checker_vercel.py` lines 188-194): resolve the channel ID
(a falsy ID — `None` or `""` — skips the channel), fetch the latest
message (`None` on no message or fetch error skips it), then classify.
`getId` abstracts the outcome of `get_channel_id` and `latest` the
outcome of `get_latest_message` for this run. -/
def channel_is_stagnant (getId : String → Option String)
    (latest : String → Option Message) (now : Nat) (ch : String) : Bool :=
  match getId ch with
  | none => false
  | some cid =>
    if cid = "" then false
    else
      match latest cid with
      | none => false
      | some m => message_is_stagnant m now

/-- The stagnant report (`run_check`, line 197). -/
def mkStagnantReport (stagnant : List String) : String :=
  "⚠️ *Your stagnant channels:*\n" ++
    String.intercalate "\n" (stagnant.map (fun c => "• #" ++ c))

/-- The all-clear report (`run_check`, line 199). -/
def allClearReport : String :=
  "✅ All your monitored channels are active."

/-- `run_check` (`stagnant_checker_vercel.py` lines 175-203), returning
the list of `(user_id, report)` direct messages handed to `notify_user`,
in iteration order.  `data` is the loaded user document as a list of
`(user_id, channels)` pairs; users with an empty channel list are
skipped; an empty document returns early with no messages. -/
def run_check (data : List (String × List String))
    (getId : String → Option String) (latest : String → Option Message)
    (now : Nat) : List (String × String) :=
  if data.isEmpty then []
  else
    data.filterMap (fun p =>
      if p.2.isEmpty then none
      else
        let stagnant := p.2.filter (channel_is_stagnant getId latest now)
        let report :=
          if !stagnant.isEmpty then mkStagnantReport stagnant
          else allClearReport
        some (p.1, report))

/-! ### Command handlers (`slack_bot.py`) -/

/-- Python `str.strip()` restricted to ASCII whitespace: drop whitespace
characters from both ends. -/
def pyStrip (s : String) : String :=
  ⟨((s.data.dropWhile Char.isWhitespace).reverse.dropWhile
      Char.isWhitespace).reverse⟩

/-- Python `str.lower()` (character-wise; the handled channel names are
ASCII). -/
def pyLower (s : String) : String :=
  ⟨s.data.map Char.toLower⟩

/-- One character of the channel-name grammar `[a-z0-9\-_]`
(`slack_bot.py` line 101). -/
def validChar (c : Char) : Bool :=
  ('a' ≤ c && c ≤ 'z') || ('0' ≤ c && c ≤ '9') || c = '-' || c = '_'

/-- `validate_channel_name` (`slack_bot.py` lines 92-109): nonempty and a
full match of `^[a-z0-9\-_]{1,80}$`. -/
def validate_channel_name (channel_name : String) : Bool :=
  channel_name != "" && channel_name.length ≤ 80 &&
    channel_name.data.all validChar

/-- The shared text-processing prefix of `cmd_watch` / `cmd_unwatch`
(`slack_bot.py` lines 134-144 and 188-198): strip the text, require a
leading `#` (`text.startswith("#")`), lowercase the remainder
(`text[1:].lower()`), and require it nonempty.  `none` models the early
"Usage:" responses. -/
def parseChannelArg (text0 : String) : Option String :=
  match (pyStrip text0).data with
  | [] => none
  | c :: rest =>
    if c = '#' then
      let channel_name := pyLower ⟨rest⟩
      if channel_name.data.isEmpty then none else some channel_name
    else none

/-- The user-visible outcome of one slash-command invocation. -/
inductive CmdResult where
  | usage
  | invalidName
  | alreadyMonitored
  | limitExceeded
  | notWatched
  | saveFailed
  | added
  | removed
deriving DecidableEq, Repr

/-- `data.get(user_id, {"channels": []})["channels"]`: the user's stored
channel list, empty if the user is unknown. -/
def lookupUser (data : List (String × List String)) (user_id : String) :
    List String :=
  (dictGet data user_id).getD []

/-- `cmd_watch` (`slack_bot.py` lines 125-169) as a function from the
stored watchlist document to `(outcome, stored document after the call)`.
`saveOk` is the store's behavior for the `save_data` call (e.g. `false`
when Redis is down, in which case `save_data` returns `False` and the
stored document is unchanged). -/
def cmd_watch (data : List (String × List String)) (user_id : String)
    (text0 : String) (saveOk : Bool) :
    CmdResult × List (String × List String) :=
  match parseChannelArg text0 with
  | none => (.usage, data)
  | some channel_name =>
    if !validate_channel_name channel_name then (.invalidName, data)
    else
      let chans := lookupUser data user_id
      if channel_name ∈ chans then (.alreadyMonitored, data)
      else if chans.length ≥ 50 then (.limitExceeded, data)
      else
        let newData := dictSet data user_id (chans ++ [channel_name])
        if saveOk then (.added, newData) else (.saveFailed, data)

/-- `cmd_unwatch` (`slack_bot.py` lines 179-226); `list.remove` removes
the first occurrence. -/
def cmd_unwatch (data : List (String × List String)) (user_id : String)
    (text0 : String) (saveOk : Bool) :
    CmdResult × List (String × List String) :=
  match parseChannelArg text0 with
  | none => (.usage, data)
  | some channel_name =>
    if !validate_channel_name channel_name then (.invalidName, data)
    else
      let chans := lookupUser data user_id
      if channel_name ∉ chans then (.notWatched, data)
      else
        let newData := dictSet data user_id (chans.erase channel_name)
        if saveOk then (.removed, newData) else (.saveFailed, data)

/-- `cmd_list` (`slack_bot.py` lines 229-255): the channel list shown to
the user (empty when the user is unknown, in which case the handler says
"not monitoring any channels yet"). -/
def cmd_list (data : List (String × List String)) (user_id : String) :
    List String :=
  lookupUser data user_id

/-- `n` repeated `/watch` invocations with the same user and text,
threading the stored document. -/
def iterWatch (n : Nat) (data : List (String × List String))
    (user_id text0 : String) (saveOk : Bool) :
    List (String × List String) :=
  match n with
  | 0 => data
  | n + 1 => iterWatch n (cmd_watch data user_id text0 saveOk).2 user_id text0 saveOk

/-! ### The stored watchlist document and its JSON round trip
(`slack_bot.py` `load_data` / `save_data`)

The stored document is the JSON object `{user_id: {"channels": [names]}}`
that this program itself writes.  `json_dumps` models Python
`json.dumps` with its default separators `", "` and `": "` on documents
of that shape whose strings need no escape sequences; `json_loads`
models Python `json.loads` on the same sublanguage (arbitrary
inter-token whitespace accepted, escape sequences and raw control
characters in strings rejected, trailing input rejected). -/

/-- The parsed watchlist document: `user_id → channels`. -/
abbrev UserDoc := List (String × List String)

/-- A character that `json.dumps` emits verbatim inside a string literal
(printable ASCII other than `"` and `\`). -/
def plainChar (c : Char) : Bool :=
  decide (0x20 ≤ c.toNat) && decide (c.toNat ≤ 0x7e) && c ≠ '"' && c ≠ '\\'

/-- All strings of the document are plain (true of every document this
program writes: user IDs and validated channel names). -/
def plainDoc (d : UserDoc) : Bool :=
  d.all (fun p => p.1.data.all plainChar && p.2.all (fun s => s.data.all plainChar))

/-- A serialized string literal, as a character list. -/
def dumpStrL (s : String) : List Char :=
  '"' :: s.data ++ ['"']

/-- The comma-separated items of a serialized string array. -/
def dumpChansL : List String → List Char
  | [] => []
  | [s] => dumpStrL s
  | s :: s2 :: rest => dumpStrL s ++ ',' :: ' ' :: dumpChansL (s2 :: rest)

/-- One serialized entry `"user": {"channels": [...]}`. -/
def dumpEntryL (p : String × List String) : List Char :=
  dumpStrL p.1 ++ ':' :: ' ' :: '\x7b' :: dumpStrL "channels" ++
    ':' :: ' ' :: '[' :: dumpChansL p.2 ++ [']', '\x7d']

/-- The comma-separated entries of the serialized document. -/
def dumpEntriesL : UserDoc → List Char
  | [] => []
  | [p] => dumpEntryL p
  | p :: q :: rest => dumpEntryL p ++ ',' :: ' ' :: dumpEntriesL (q :: rest)

/-- `json.dumps` of a watchlist document (default separators). -/
def json_dumps (d : UserDoc) : String :=
  ⟨'\x7b' :: dumpEntriesL d ++ ['\x7d']⟩

/-- JSON tokens of the document sublanguage. -/
inductive Tok where
  | lbrace
  | rbrace
  | lbracket
  | rbracket
  | colon
  | comma
  | str (s : String)
deriving DecidableEq, Repr

/-- Tokenize the document sublanguage, one character at a time: outside a
string literal (`mode = none`) skip whitespace and emit single-character
punctuation tokens; a `"` enters string mode (`mode = some acc`, the
reversed content so far), which runs to the closing `"`.  Escape
sequences (`\`) and raw control characters inside strings are not part
of the modelled sublanguage and are rejected, as is an unterminated
string or any other character. -/
def tokAux : Option (List Char) → List Char → Option (List Tok)
  | none, [] => some []
  | none, c :: cs =>
    if c.isWhitespace then tokAux none cs
    else if c = '\x7b' then (tokAux none cs).map (Tok.lbrace :: ·)
    else if c = '\x7d' then (tokAux none cs).map (Tok.rbrace :: ·)
    else if c = '[' then (tokAux none cs).map (Tok.lbracket :: ·)
    else if c = ']' then (tokAux none cs).map (Tok.rbracket :: ·)
    else if c = ':' then (tokAux none cs).map (Tok.colon :: ·)
    else if c = ',' then (tokAux none cs).map (Tok.comma :: ·)
    else if c = '"' then tokAux (some []) cs
    else none
  | some _, [] => none
  | some acc, c :: cs =>
    if c = '"' then (tokAux none cs).map (Tok.str ⟨acc.reverse⟩ :: ·)
    else if decide (0x20 ≤ c.toNat) && c != '\\' then tokAux (some (c :: acc)) cs
    else none

/-- Tokenize a document. -/
def tokenize (cs : List Char) : Option (List Tok) :=
  tokAux none cs

/-- Parse the items of a nonempty string array, after the opening `[`. -/
def parseItems : List Tok → Option (List String × List Tok)
  | Tok.str s :: Tok.comma :: rest =>
    match parseItems rest with
    | some (l, r) => some (s :: l, r)
    | none => none
  | Tok.str s :: Tok.rbracket :: rest => some ([s], rest)
  | _ => none

/-- Parse a string array `[...]`. -/
def parseArray : List Tok → Option (List String × List Tok)
  | Tok.lbracket :: Tok.rbracket :: rest => some ([], rest)
  | Tok.lbracket :: rest => parseItems rest
  | _ => none

theorem parseItems_length : ∀ (ts : List Tok) (l : List String) (r : List Tok),
    parseItems ts = some (l, r) → r.length < ts.length := by
  intro ts
  induction ts using parseItems.induct with
  | case1 s rest l' r' hp ih =>
    intro l r h
    simp only [parseItems, hp, Option.some.injEq, Prod.mk.injEq] at h
    obtain ⟨-, h2⟩ := h
    subst h2
    have := ih l' r' hp
    simp only [List.length_cons]
    omega
  | case2 s rest hp ih =>
    intro l r h
    simp [parseItems, hp] at h
  | case3 s rest =>
    intro l r h
    simp only [parseItems, Option.some.injEq, Prod.mk.injEq] at h
    obtain ⟨-, h2⟩ := h
    subst h2
    simp only [List.length_cons]
    omega
  | case4 t h1 h2 =>
    intro l r h
    rw [parseItems.eq_def] at h
    split at h
    all_goals first
      | exact (h1 _ _ rfl).elim
      | exact (h2 _ _ rfl).elim
      | exact absurd h (by simp)

theorem parseArray_length : ∀ (ts : List Tok) (l : List String) (r : List Tok),
    parseArray ts = some (l, r) → r.length < ts.length := by
  intro ts l r h
  rw [parseArray.eq_def] at h
  split at h
  all_goals first
    | (simp only [Option.some.injEq, Prod.mk.injEq] at h
       obtain ⟨-, h2⟩ := h
       subst h2
       simp only [List.length_cons]
       omega)
    | (have hx := parseItems_length _ _ _ h
       simp only [List.length_cons] at hx ⊢
       omega)
    | exact absurd h (by simp)

/-- Parse the entries of a nonempty document object, after the opening
brace; the closing brace of the object is consumed here. -/
def parseEntries : List Tok → Option (UserDoc × List Tok)
  | Tok.str k :: Tok.colon :: Tok.lbrace :: Tok.str c :: Tok.colon :: rest =>
    if c = "channels" then
      match harr : parseArray rest with
      | some (arr, Tok.rbrace :: Tok.comma :: rest2) =>
        match parseEntries rest2 with
        | some (d, r) => some ((k, arr) :: d, r)
        | none => none
      | some (arr, Tok.rbrace :: Tok.rbrace :: rest2) => some ([(k, arr)], rest2)
      | _ => none
    else none
  | _ => none
termination_by ts => ts.length
decreasing_by
  have := parseArray_length _ _ _ harr
  simp only [List.length_cons] at *
  omega

/-- Parse what follows a document's opening brace: an immediate closing
brace (the empty object) or entries; all tokens must be consumed. -/
def parseDocRest (rest : List Tok) : Option UserDoc :=
  match rest with
  | [Tok.rbrace] => some []
  | _ =>
    match parseEntries rest with
    | some (d, []) => some d
    | _ => none

/-- Parse a whole document: `{}` or `{entries}`, with no trailing
tokens. -/
def parseDoc (toks : List Tok) : Option UserDoc :=
  match toks with
  | Tok.lbrace :: rest => parseDocRest rest
  | _ => none

/-- `json.loads` of a stored byte string, on the modelled sublanguage. -/
def json_loads (s : String) : Option UserDoc :=
  (tokenize s.data).bind parseDoc

/-- `load_data` (`slack_bot.py` lines 59-73) on the stored bytes
(`none` = key absent): a falsy raw value or any loading error yields the
empty document. -/
def load_data (stored : Option String) : UserDoc :=
  match stored with
  | none => []
  | some s => if s.isEmpty then [] else (json_loads s).getD []

/-- The bytes that `save_data(load_data())` (`slack_bot.py` lines 76-89
after 59-73) writes back to the store. -/
def save_data_of_load (stored : Option String) : String :=
  json_dumps (load_data stored)

/-- The token list of a serialized string array's items. -/
def chanToksL : List String → List Tok
  | [] => []
  | [s] => [Tok.str s]
  | s :: s2 :: rest => Tok.str s :: Tok.comma :: chanToksL (s2 :: rest)

/-- The token list of one serialized document entry. -/
def entryToks (p : String × List String) : List Tok :=
  Tok.str p.1 :: Tok.colon :: Tok.lbrace :: Tok.str "channels" ::
    Tok.colon :: Tok.lbracket :: (chanToksL p.2 ++ [Tok.rbracket, Tok.rbrace])

/-- The token list of the serialized entries of a document. -/
def docEntriesToks : UserDoc → List Tok
  | [] => []
  | [p] => entryToks p
  | p :: q :: rest => entryToks p ++ Tok.comma :: docEntriesToks (q :: rest)

/-- The token list of a whole serialized document. -/
def docToks (d : UserDoc) : List Tok :=
  Tok.lbrace :: (docEntriesToks d ++ [Tok.rbrace])

/-! ### Shared helper lemmas -/

deriving instance DecidableEq for Except

theorem dictGet_dictSet_self {β : Type} (m : List (String × β)) (k : String)
    (v : β) : dictGet (dictSet m k v) k = some v := by
  induction m with
  | nil => simp [dictSet, dictGet]
  | cons p rest ih =>
    by_cases h : p.1 = k
    · simp [dictSet, dictGet, h]
    · simp [dictSet, dictGet, h, ih]

theorem dictSet_of_get_none {β : Type} {m : List (String × β)} {k : String}
    (v : β) (h : dictGet m k = none) : dictSet m k v = m ++ [(k, v)] := by
  induction m with
  | nil => simp [dictSet]
  | cons p rest ih =>
    by_cases hk : p.1 = k
    · simp [dictGet, hk] at h
    · simp only [dictGet, hk, if_false] at h
      simp [dictSet, hk, ih h]

theorem lookupUser_dictSet (data : List (String × List String))
    (u : String) (v : List String) : lookupUser (dictSet data u v) u = v := by
  simp [lookupUser, dictGet_dictSet_self]

/-! ### Claim theorems -/

/-- C1 (counterexample): the claim "if the cache is fresh and the name is
present in its entries, resolve returns the cached ID without performing
any channel listing" fails when the cached ID is the empty string, which
is falsy in Python: with a fresh cache mapping `"eng"` to `""`, the
resolver performs a (fallback) channel listing and does not return the
cached ID. -/
theorem resolve_cached_hit_counterexample :
    is_cache_valid ⟨[("eng", "")], some 0⟩ 1 = true ∧
    dictGet (Cache.channels ⟨[("eng", "")], some 0⟩) "eng" = some "" ∧
    get_channel_id (.ok ⟨[("eng", "")], some 0⟩) 1 "eng" (.ok []) false =
      .ok ⟨none, 1, none⟩ := by decide

/-- C1 (amended): for every cache state and requested name, if the cache
is fresh (`now - last_updated < 24h`) and the name maps to a non-empty ID
in its entries, resolve returns that cached ID with no channel listing
and no save; if `last_updated` is absent or at least 24h old, resolve
performs one full paginated listing, and when that listing succeeds it
replaces the entire cache map with the fresh result, sets
`last_updated = now`, persists, and returns the requested name's mapping
(`none` = `NotFound` when absent). -/
theorem resolve_cache_policy (cache : Cache) (now : Nat) (name : String)
    (listing : Except Unit (List Chan)) :
    (∀ cid, is_cache_valid cache now = true →
      dictGet cache.channels name = some cid → cid ≠ "" →
      get_channel_id (.ok cache) now name listing false =
        .ok ⟨some cid, 0, none⟩) ∧
    (∀ chans, is_cache_valid cache now = false → listing = .ok chans →
      get_channel_id (.ok cache) now name listing false =
        .ok ⟨dictGet (buildMapping chans) name, 1,
          some ⟨buildMapping chans, some now⟩⟩) := by
  constructor
  · intro cid hv hg hne
    simp [get_channel_id, hv, hg, hne]
  · intro chans hv hl
    subst hl
    simp only [get_channel_id, hv, Bool.false_eq_true, if_false]
    by_cases he : (buildMapping chans).isEmpty
    · rw [List.isEmpty_iff] at he
      simp [he, dictGet]
    · simp [he]

/-- C1 (witness). -/
theorem resolve_cache_policy_witness :
    get_channel_id (.ok ⟨[("eng", "C1")], some 0⟩) 1 "eng" (.ok []) false =
      .ok ⟨some "C1", 0, none⟩ ∧
    get_channel_id (.ok ⟨[("eng", "C1")], some 0⟩) 100000 "eng"
        (.ok [⟨"x", "Y"⟩]) false =
      .ok ⟨dictGet (buildMapping [⟨"x", "Y"⟩]) "eng", 1,
        some ⟨buildMapping [⟨"x", "Y"⟩], some 100000⟩⟩ :=
  ⟨(resolve_cache_policy _ 1 "eng" _).1 "C1" (by decide) (by decide) (by decide),
   (resolve_cache_policy _ 100000 "eng" _).2 _ (by decide) rfl⟩

/-- C2: for every fresh cache in which the requested name has no entry,
the resolver performs exactly one full paginated listing (whatever that
listing's outcome); if the listing finds the name, the resolver returns
the found ID and persists the cache with exactly that one mapping
appended and `last_updated` unchanged; if the listing completes without
finding the name, it returns `NotFound` and persists nothing. -/
theorem resolve_fallback_single_add (cache : Cache) (now : Nat)
    (name : String) (listing : Except Unit (List Chan))
    (hv : is_cache_valid cache now = true)
    (hmiss : dictGet cache.channels name = none) :
    (∀ out, get_channel_id (.ok cache) now name listing false = .ok out →
      out.listings = 1) ∧
    (∀ chans c, listing = .ok chans →
      chans.find? (fun x => x.name = name) = some c →
      get_channel_id (.ok cache) now name listing false =
        .ok ⟨some c.id, 1,
          some ⟨cache.channels ++ [(name, c.id)], cache.last_updated⟩⟩) ∧
    (∀ chans, listing = .ok chans →
      chans.find? (fun x => x.name = name) = none →
      get_channel_id (.ok cache) now name listing false =
        .ok ⟨none, 1, none⟩) := by
  refine ⟨?_, ?_, ?_⟩
  · intro out hout
    simp only [get_channel_id, hv, if_true, hmiss] at hout
    unfold single_lookup at hout
    cases listing with
    | error e =>
      simp only [Except.ok.injEq] at hout
      rw [← hout]
    | ok chans =>
      cases hf : chans.find? (fun c => c.name = name) with
      | some c =>
        simp only [hf, Bool.false_eq_true, if_false, Except.ok.injEq] at hout
        rw [← hout]
      | none =>
        simp only [hf, Except.ok.injEq] at hout
        rw [← hout]
  · intro chans c hl hf
    subst hl
    simp [get_channel_id, hv, hmiss, single_lookup, hf,
      dictSet_of_get_none c.id hmiss]
  · intro chans hl hf
    subst hl
    simp [get_channel_id, hv, hmiss, single_lookup, hf]

/-- C2 (witness). -/
theorem resolve_fallback_single_add_witness :
    get_channel_id (.ok ⟨[("a", "A")], some 0⟩) 1 "eng"
        (.ok [⟨"x", "X"⟩, ⟨"eng", "C9"⟩]) false =
      .ok ⟨some "C9", 1, some ⟨[("a", "A"), ("eng", "C9")], some 0⟩⟩ ∧
    get_channel_id (.ok ⟨[("a", "A")], some 0⟩) 1 "eng" (.ok [⟨"x", "X"⟩])
        false = .ok ⟨none, 1, none⟩ :=
  ⟨by
    have h := (resolve_fallback_single_add ⟨[("a", "A")], some 0⟩ 1 "eng"
      (.ok [⟨"x", "X"⟩, ⟨"eng", "C9"⟩]) (by decide) (by decide)).2.1
      [⟨"x", "X"⟩, ⟨"eng", "C9"⟩] ⟨"eng", "C9"⟩ rfl (by decide)
    exact h.trans (by decide),
   (resolve_fallback_single_add ⟨[("a", "A")], some 0⟩ 1 "eng"
      (.ok [⟨"x", "X"⟩]) (by decide) (by decide)).2.2
      [⟨"x", "X"⟩] rfl (by decide)⟩

/-- C3: a watched channel is classified stagnant in a run iff its ID
resolves (to a truthy ID, so the channel is actually evaluated) and its
latest message exists and has age `now - ts` strictly greater than 2 days
and reply count 0 (an absent `reply_count` counts as 0); in particular a
channel with no latest message is never classified stagnant. -/
theorem stagnant_iff_old_and_unreplied (getId : String → Option String)
    (latest : String → Option Message) (now : Nat) (ch : String) :
    channel_is_stagnant getId latest now ch = true ↔
      ∃ cid m, getId ch = some cid ∧ cid ≠ "" ∧ latest cid = some m ∧
        (now : Int) - (m.ts : Int) > 2 * 86400 ∧ m.reply_count.getD 0 = 0 := by
  unfold channel_is_stagnant
  cases hg : getId ch with
  | none => simp [hg]
  | some cid =>
    by_cases hc : cid = ""
    · subst hc
      simp [hg]
    · simp only []
      rw [if_neg hc]
      cases hl : latest cid with
      | none =>
        constructor
        · intro h; cases h
        · rintro ⟨cid', m', hcid, -, hm, -⟩
          injection hcid with hcid'
          subst hcid'
          rw [hl] at hm
          simp at hm
      | some m =>
        unfold message_is_stagnant
        simp only [hg, hl, Bool.and_eq_true, decide_eq_true_eq,
          Bool.not_eq_true', decide_eq_false_iff_not, Option.some.injEq]
        constructor
        · rintro ⟨h1, h2⟩
          refine ⟨cid, m, rfl, hc, hl, ?_, ?_⟩
          · omega
          · omega
        · rintro ⟨cid', m', hcid, -, hm, h1, h2⟩
          obtain rfl : cid' = cid := hcid.symm
          rw [hl] at hm
          obtain rfl : m' = m := by
            simpa using hm.symm
          constructor
          · omega
          · omega

/-- C4 (counterexample): the claim "resolve never raises an exception to
its caller for every behavior of the external listing call and cache
store" fails: only `SlackApiError` from the listing is caught, so a raise
from the store's `save_cache` in the fallback path propagates out of
`get_channel_id`. -/
theorem resolve_raises_counterexample :
    get_channel_id (.ok ⟨[], some 0⟩) 1 "eng" (.ok [⟨"eng", "C1"⟩]) true =
      .error () := by decide

/-- C4 (amended): provided loading the cache and saving it do not raise,
resolve never raises an exception to its caller, and an external listing
error is caught and treated as no mapping found for that call: whenever a
listing was performed and it errored, the call returns `NotFound`/`None`
and persists nothing.  (Store errors — a raising load or save — do
propagate out of the resolver.) -/
theorem resolve_no_raise_when_store_ok (cache : Cache) (now : Nat)
    (name : String) (listing : Except Unit (List Chan)) :
    (∃ out, get_channel_id (.ok cache) now name listing false = .ok out) ∧
    (∀ out, get_channel_id (.ok cache) now name listing false = .ok out →
      listing = .error () → 1 ≤ out.listings →
      out.result = none ∧ out.saved = none) := by
  have hsingle : ∀ l, (∃ out, single_lookup cache name l false = .ok out) ∧
      (∀ out, single_lookup cache name l false = .ok out → l = .error () →
        out.result = none ∧ out.saved = none) := by
    intro l
    unfold single_lookup
    cases l with
    | error e =>
      refine ⟨⟨_, rfl⟩, ?_⟩
      rintro out hout -
      simp only [Except.ok.injEq] at hout
      simp [← hout]
    | ok chans =>
      cases hf : chans.find? (fun c => c.name = name) with
      | some c =>
        simp only [hf, Bool.false_eq_true, if_false]
        exact ⟨⟨_, rfl⟩, by rintro out - h; cases h⟩
      | none =>
        simp only [hf]
        exact ⟨⟨_, rfl⟩, by rintro out - h; cases h⟩
  by_cases hv : is_cache_valid cache now = true
  · cases hg : dictGet cache.channels name with
    | some cid =>
      by_cases hc : cid ≠ ""
      · refine ⟨⟨⟨some cid, 0, none⟩, by simp [get_channel_id, hv, hg, hc]⟩, ?_⟩
        rintro out hout rfl h1
        simp [get_channel_id, hv, hg, hc] at hout
        subst hout
        simp at h1
      · obtain ⟨out0, hout0⟩ := (hsingle listing).1
        refine ⟨⟨out0, by simpa [get_channel_id, hv, hg, hc] using hout0⟩, ?_⟩
        rintro out hout rfl h1
        exact (hsingle (Except.error ())).2 out
          (by simpa [get_channel_id, hv, hg, hc] using hout) rfl
    | none =>
      obtain ⟨out0, hout0⟩ := (hsingle listing).1
      refine ⟨⟨out0, by simpa [get_channel_id, hv, hg] using hout0⟩, ?_⟩
      rintro out hout rfl h1
      exact (hsingle (Except.error ())).2 out
        (by simpa [get_channel_id, hv, hg] using hout) rfl
  · rw [Bool.not_eq_true] at hv
    refine ⟨?_, ?_⟩
    · cases listing with
      | error e => exact ⟨⟨none, 1, none⟩, by simp [get_channel_id, hv]⟩
      | ok chans =>
        exact ⟨⟨if (buildMapping chans).isEmpty then none
                else dictGet (buildMapping chans) name, 1,
                some ⟨buildMapping chans, some now⟩⟩,
          by simp [get_channel_id, hv]⟩
    · rintro out hout rfl h1
      simp [get_channel_id, hv] at hout
      subst hout
      exact ⟨rfl, rfl⟩

/-- C4 (witness). -/
theorem resolve_no_raise_when_store_ok_witness :
    (∃ out, get_channel_id (.ok ⟨[], some 0⟩) 1 "eng" (.error ()) false =
      .ok out) ∧
    ResolveOut.result ⟨none, 1, none⟩ = none ∧
    ResolveOut.saved ⟨none, 1, none⟩ = none :=
  ⟨(resolve_no_raise_when_store_ok ⟨[], some 0⟩ 1 "eng" (.error ())).1,
   (resolve_no_raise_when_store_ok ⟨[], some 0⟩ 1 "eng" (.error ())).2
     ⟨none, 1, none⟩ (by decide) rfl (by decide)⟩

/-- C10: a `/watch` (or `/unwatch`) whose text starts with `#` lowercases
the remainder before validating and storing it: the raw name `ENG-Team`
fails the channel-name grammar, yet `/watch #ENG-Team` parses to
`eng-team`, passes validation, and is stored (and removable) as
`eng-team`. -/
theorem watch_lowercases_before_validation :
    validate_channel_name "ENG-Team" = false ∧
    parseChannelArg "#ENG-Team" = some "eng-team" ∧
    validate_channel_name "eng-team" = true ∧
    cmd_watch [] "U1" "#ENG-Team" true = (.added, [("U1", ["eng-team"])]) ∧
    cmd_unwatch [("U1", ["eng-team"])] "U1" "#ENG-Team" true =
      (.removed, [("U1", [])]) := by decide

/-- C6: for a user already at 50 watched channels, `/watch` of a new
valid name fails with the 50-channel cap message and leaves the stored
watchlist unchanged; `/watch` of a name already present is the
"already monitored" no-op (checked before the cap) and also leaves the
store unchanged. -/
theorem watch_cap_enforced (data : List (String × List String))
    (user text name : String) (saveOk : Bool)
    (hp : parseChannelArg text = some name)
    (hv : validate_channel_name name = true)
    (hlen : (lookupUser data user).length = 50) :
    (name ∉ lookupUser data user →
      cmd_watch data user text saveOk = (.limitExceeded, data)) ∧
    (name ∈ lookupUser data user →
      cmd_watch data user text saveOk = (.alreadyMonitored, data)) := by
  constructor
  · intro hni
    simp [cmd_watch, hp, hv, hni, hlen]
  · intro hin
    simp [cmd_watch, hp, hv, hin]

/-- C6 (witness): a watchlist of the 50 distinct names "0".."49". -/
theorem watch_cap_enforced_witness :
    cmd_watch [("U1", (List.range 50).map (fun i => toString i))] "U1"
        "#eng" true =
      (.limitExceeded, [("U1", (List.range 50).map (fun i => toString i))]) ∧
    cmd_watch [("U1", (List.range 50).map (fun i => toString i))] "U1"
        "#7" true =
      (.alreadyMonitored,
        [("U1", (List.range 50).map (fun i => toString i))]) :=
  ⟨(watch_cap_enforced _ "U1" "#eng" "eng" true (by decide) (by decide)
      (by decide)).1 (by decide),
   (watch_cap_enforced _ "U1" "#7" "7" true (by decide) (by decide)
      (by decide)).2 (by decide)⟩

theorem cmd_watch_mem_noop (data : List (String × List String))
    (user text name : String) (saveOk : Bool)
    (hp : parseChannelArg text = some name)
    (hv : validate_channel_name name = true)
    (hin : name ∈ lookupUser data user) :
    cmd_watch data user text saveOk = (.alreadyMonitored, data) := by
  simp [cmd_watch, hp, hv, hin]

theorem iterWatch_mem_fixed (n : Nat) (data : List (String × List String))
    (user text name : String) (saveOk : Bool)
    (hp : parseChannelArg text = some name)
    (hv : validate_channel_name name = true)
    (hin : name ∈ lookupUser data user) :
    iterWatch n data user text saveOk = data := by
  induction n with
  | zero => rfl
  | succ n ih =>
    show iterWatch n (cmd_watch data user text saveOk).2 user text saveOk = data
    rw [cmd_watch_mem_noop data user text name saveOk hp hv hin]
    exact ih

/-- C7: repeated `/watch` of the same valid name is idempotent: starting
from a state where the name either is not yet watched (with room under
the cap) or is watched exactly once, after any positive number of
`/watch` calls the user's `/list` contains the name exactly once. -/
theorem watch_add_idempotent (data : List (String × List String))
    (user text name : String) (n : Nat)
    (hp : parseChannelArg text = some name)
    (hv : validate_channel_name name = true)
    (hstart : if name ∈ lookupUser data user
              then (lookupUser data user).count name = 1
              else (lookupUser data user).length < 50)
    (hn : 1 ≤ n) :
    (cmd_list (iterWatch n data user text true) user).count name = 1 := by
  obtain ⟨m, rfl⟩ : ∃ m, n = m + 1 := ⟨n - 1, by omega⟩
  have h1 : (lookupUser (cmd_watch data user text true).2 user).count name
      = 1 := by
    by_cases hin : name ∈ lookupUser data user
    · rw [cmd_watch_mem_noop data user text name true hp hv hin]
      rw [if_pos hin] at hstart
      exact hstart
    · rw [if_neg hin] at hstart
      have hge : ¬ (lookupUser data user).length ≥ 50 := by omega
      have hw : cmd_watch data user text true =
          (.added, dictSet data user (lookupUser data user ++ [name])) := by
        simp [cmd_watch, hp, hv, hin, hge]
      rw [hw]
      show (lookupUser (dictSet data user (lookupUser data user ++ [name]))
        user).count name = 1
      rw [lookupUser_dictSet]
      rw [List.count_append]
      rw [List.count_eq_zero.mpr hin]
      simp
  have hmem1 : name ∈ lookupUser (cmd_watch data user text true).2 user := by
    have := h1
    by_contra hno
    rw [List.count_eq_zero.mpr hno] at this
    cases this
  show (cmd_list (iterWatch m (cmd_watch data user text true).2 user text
    true) user).count name = 1
  rw [iterWatch_mem_fixed m _ user text name true hp hv hmem1]
  simpa [cmd_list] using h1

/-- C7 (witness): two `/watch #eng` calls on a fresh store. -/
theorem watch_add_idempotent_witness :
    (cmd_list (iterWatch 2 [] "U1" "#eng" true) "U1").count "eng" = 1 :=
  watch_add_idempotent [] "U1" "#eng" "eng" 2 (by decide) (by decide)
    (by decide) (by decide)

/-- C8: when persistence fails (`save_data` returns `False`), a `/watch`
or `/unwatch` call leaves the stored watchlist document exactly as it
was; and any such call that actually reaches the save (a new valid name
under the cap for `/watch`, a watched name for `/unwatch`) reports the
storage failure to the user. -/
theorem storage_failure_not_committed (data : List (String × List String))
    (user text : String) :
    ((cmd_watch data user text false).2 = data ∧
     (cmd_unwatch data user text false).2 = data) ∧
    (∀ name, parseChannelArg text = some name →
      validate_channel_name name = true → name ∉ lookupUser data user →
      (lookupUser data user).length < 50 →
      (cmd_watch data user text false).1 = .saveFailed) ∧
    (∀ name, parseChannelArg text = some name →
      validate_channel_name name = true → name ∈ lookupUser data user →
      (cmd_unwatch data user text false).1 = .saveFailed) := by
  refine ⟨⟨?_, ?_⟩, ?_, ?_⟩
  · cases hp : parseChannelArg text with
    | none => simp [cmd_watch, hp]
    | some name =>
      simp only [cmd_watch, hp]
      split_ifs <;> first | rfl | exact (‹False›).elim
  · cases hp : parseChannelArg text with
    | none => simp [cmd_unwatch, hp]
    | some name =>
      simp only [cmd_unwatch, hp]
      split_ifs <;> first | rfl | exact (‹False›).elim
  · intro name hp hv hni hlen
    have hge : ¬ (lookupUser data user).length ≥ 50 := by omega
    simp [cmd_watch, hp, hv, hni, hge]
  · intro name hp hv hin
    simp [cmd_unwatch, hp, hv, hin]

/-- C8 (witness). -/
theorem storage_failure_not_committed_witness :
    (cmd_watch [("U1", ["eng"])] "U1" "#new" false).2 = [("U1", ["eng"])] ∧
    (cmd_unwatch [("U1", ["eng"])] "U1" "#eng" false).2 = [("U1", ["eng"])] ∧
    (cmd_watch [("U1", ["eng"])] "U1" "#new" false).1 = .saveFailed ∧
    (cmd_unwatch [("U1", ["eng"])] "U1" "#eng" false).1 = .saveFailed :=
  ⟨(storage_failure_not_committed [("U1", ["eng"])] "U1" "#new").1.1,
   (storage_failure_not_committed [("U1", ["eng"])] "U1" "#eng").1.2,
   (storage_failure_not_committed [("U1", ["eng"])] "U1" "#new").2.1 "new"
     (by decide) (by decide) (by decide) (by decide),
   (storage_failure_not_committed [("U1", ["eng"])] "U1" "#eng").2.2 "eng"
     (by decide) (by decide) (by decide)⟩

theorem run_check_eq_filterMap (data : List (String × List String))
    (getId : String → Option String) (latest : String → Option Message)
    (now : Nat) :
    run_check data getId latest now = data.filterMap (fun p =>
      if p.2.isEmpty then none
      else
        some (p.1,
          if !(p.2.filter (channel_is_stagnant getId latest now)).isEmpty
          then mkStagnantReport (p.2.filter (channel_is_stagnant getId latest now))
          else allClearReport)) := by
  unfold run_check
  by_cases h : data.isEmpty
  · rw [if_pos h]
    rw [List.isEmpty_iff] at h
    subst h
    rfl
  · rw [if_neg h]

theorem filterMap_dm_filter_of_not_mem (getId : String → Option String)
    (latest : String → Option Message) (now : Nat) (u : String) :
    ∀ (rest : List (String × List String)), u ∉ rest.map Prod.fst →
      ((rest.filterMap (fun p =>
        if p.2.isEmpty then none
        else
          some (p.1,
            if !(p.2.filter (channel_is_stagnant getId latest now)).isEmpty
            then mkStagnantReport
              (p.2.filter (channel_is_stagnant getId latest now))
            else allClearReport))).filter
          (fun dm => dm.1 == u)) = [] := by
  intro rest
  induction rest with
  | nil => intro h; rfl
  | cons p rest ih =>
    intro h
    rw [List.map_cons, List.mem_cons] at h
    push_neg at h
    obtain ⟨hne, hrest⟩ := h
    rw [List.filterMap_cons]
    by_cases hp : p.2.isEmpty
    · rw [if_pos hp]
      exact ih hrest
    · rw [if_neg hp]
      rw [List.filter_cons]
      have : ((p.1, if !(p.2.filter (channel_is_stagnant getId latest
          now)).isEmpty then mkStagnantReport (p.2.filter
          (channel_is_stagnant getId latest now)) else allClearReport).1
            == u) = false := by
        simp only [beq_eq_false_iff_ne, ne_eq]
        exact fun hc => hne hc.symm
      rw [this]
      simp only [Bool.false_eq_true, if_false]
      exact ih hrest

/-- C5: in every run, a user with a nonempty watchlist receives exactly
one DM — the warning-prefixed bulleted list of the stagnant channel
names in watchlist order when the stagnant set is nonempty, otherwise
the all-clear confirmation — and a user whose watchlist is empty
receives none. -/
theorem run_check_one_dm_per_user (data : List (String × List String))
    (getId : String → Option String) (latest : String → Option Message)
    (now : Nat) (u : String) (chs : List String)
    (hnd : (data.map Prod.fst).Nodup) (hmem : (u, chs) ∈ data) :
    (run_check data getId latest now).filter (fun dm => dm.1 == u) =
      if chs.isEmpty then []
      else [(u,
        if !(chs.filter (channel_is_stagnant getId latest now)).isEmpty
        then mkStagnantReport (chs.filter (channel_is_stagnant getId latest now))
        else allClearReport)] := by
  rw [run_check_eq_filterMap]
  induction data with
  | nil => cases hmem
  | cons p rest ih =>
    rw [List.map_cons, List.nodup_cons] at hnd
    obtain ⟨hp1, hndr⟩ := hnd
    rw [List.mem_cons] at hmem
    cases hmem with
    | inl heq =>
      subst heq
      rw [List.filterMap_cons]
      by_cases hce : chs.isEmpty
      · rw [if_pos hce, if_pos hce]
        exact filterMap_dm_filter_of_not_mem getId latest now u rest hp1
      · rw [if_neg hce, if_neg hce]
        rw [List.filter_cons]
        have : (((u : String),
            if !(chs.filter (channel_is_stagnant getId latest now)).isEmpty
            then mkStagnantReport (chs.filter (channel_is_stagnant getId
              latest now))
            else allClearReport).1 == u) = true := by
          simp
        rw [this]
        simp only [if_true]
        rw [filterMap_dm_filter_of_not_mem getId latest now u rest hp1]
    | inr hmr =>
      have hne : p.1 ≠ u := by
        intro hc
        subst hc
        exact hp1 (List.mem_map.mpr ⟨(p.1, chs), hmr, rfl⟩)
      rw [List.filterMap_cons]
      by_cases hpe : p.2.isEmpty
      · rw [if_pos hpe]
        exact ih hndr hmr
      · rw [if_neg hpe]
        rw [List.filter_cons]
        have : ((p.1, if !(p.2.filter (channel_is_stagnant getId latest
            now)).isEmpty then mkStagnantReport (p.2.filter
            (channel_is_stagnant getId latest now)) else allClearReport).1
              == u) = false := by
          simp only [beq_eq_false_iff_ne, ne_eq]
          exact hne
        rw [this]
        simp only [Bool.false_eq_true, if_false]
        exact ih hndr hmr

/-- C5 (witness): `U1` watches `eng` (latest message 10 days old, no
replies — stagnant) and `random` (fresh message — active); `U2` watches
nothing.  `U1` gets exactly the warning DM listing `eng`; `U2` gets no
DM. -/
theorem run_check_one_dm_per_user_witness :
    ((run_check [("U1", ["eng", "random"]), ("U2", [])]
        (fun ch => if ch = "eng" then some "C1"
                   else if ch = "random" then some "C2" else none)
        (fun cid => if cid = "C1" then some ⟨0, none⟩
                    else if cid = "C2" then some ⟨860000, some 3⟩ else none)
        864000).filter (fun dm => dm.1 == "U1") =
      [("U1", "⚠️ *Your stagnant channels:*\n• #eng")]) ∧
    ((run_check [("U1", ["eng", "random"]), ("U2", [])]
        (fun ch => if ch = "eng" then some "C1"
                   else if ch = "random" then some "C2" else none)
        (fun cid => if cid = "C1" then some ⟨0, none⟩
                    else if cid = "C2" then some ⟨860000, some 3⟩ else none)
        864000).filter (fun dm => dm.1 == "U2") = []) := by
  constructor
  · exact (run_check_one_dm_per_user _ _ _ 864000 "U1" ["eng", "random"]
      (by decide) (by decide)).trans (by decide)
  · exact (run_check_one_dm_per_user _ _ _ 864000 "U2" []
      (by decide) (by decide)).trans (by decide)

/-! ### Tokenizer evaluation lemmas on canonical serializer output -/

theorem tokAux_ws (rest : List Char) :
    tokAux none (' ' :: rest) = tokAux none rest := rfl

theorem tokAux_lb (rest : List Char) :
    tokAux none ('\x7b' :: rest) =
      (tokAux none rest).map (Tok.lbrace :: ·) := rfl

theorem tokAux_rb (rest : List Char) :
    tokAux none ('\x7d' :: rest) =
      (tokAux none rest).map (Tok.rbrace :: ·) := rfl

theorem tokAux_lbk (rest : List Char) :
    tokAux none ('[' :: rest) =
      (tokAux none rest).map (Tok.lbracket :: ·) := rfl

theorem tokAux_rbk (rest : List Char) :
    tokAux none (']' :: rest) =
      (tokAux none rest).map (Tok.rbracket :: ·) := rfl

theorem tokAux_colon (rest : List Char) :
    tokAux none (':' :: rest) =
      (tokAux none rest).map (Tok.colon :: ·) := rfl

theorem tokAux_comma (rest : List Char) :
    tokAux none (',' :: rest) =
      (tokAux none rest).map (Tok.comma :: ·) := rfl

theorem tokAux_quote (rest : List Char) :
    tokAux none ('"' :: rest) = tokAux (some []) rest := rfl

theorem tokAux_close (acc rest : List Char) :
    tokAux (some acc) ('"' :: rest) =
      (tokAux none rest).map (Tok.str ⟨acc.reverse⟩ :: ·) := rfl

theorem tokAux_scan (content : List Char) :
    ∀ (acc rest : List Char) (ts : List Tok),
      content.all plainChar = true → tokAux none rest = some ts →
      tokAux (some acc) (content ++ '"' :: rest) =
        some (Tok.str ⟨acc.reverse ++ content⟩ :: ts) := by
  induction content with
  | nil =>
    intro acc rest ts _ hrest
    rw [List.nil_append, tokAux_close, hrest]
    simp
  | cons c cs ih =>
    intro acc rest ts h hrest
    rw [List.all_cons, Bool.and_eq_true] at h
    obtain ⟨hc, hcs⟩ := h
    obtain ⟨⟨⟨hge, -⟩, hq⟩, hbs⟩ :
        ((0x20 ≤ c.toNat ∧ c.toNat ≤ 0x7e) ∧ ¬c = '"') ∧ ¬c = '\\' := by
      simpa [plainChar] using hc
    rw [List.cons_append]
    have hstep : tokAux (some acc) (c :: (cs ++ '"' :: rest)) =
        tokAux (some (c :: acc)) (cs ++ '"' :: rest) := by
      simp only [tokAux]
      rw [if_neg hq,
        if_pos (show (decide (0x20 ≤ c.toNat) && c != '\\') = true by
          simp [hge, bne_iff_ne, hbs])]
    rw [hstep, ih (c :: acc) rest ts hcs hrest]
    simp [List.append_assoc]

theorem tokAux_str (s : String) (rest : List Char) (ts : List Tok)
    (h : s.data.all plainChar = true) (hrest : tokAux none rest = some ts) :
    tokAux none (dumpStrL s ++ rest) = some (Tok.str s :: ts) := by
  have hassoc : dumpStrL s ++ rest = '"' :: (s.data ++ '"' :: rest) := by
    simp [dumpStrL]
  rw [hassoc, tokAux_quote]
  exact tokAux_scan s.data [] rest ts h hrest

theorem tokAux_chans (chs : List String) :
    ∀ (rest : List Char) (ts : List Tok), chs ≠ [] →
      chs.all (fun s => s.data.all plainChar) = true →
      tokAux none rest = some ts →
      tokAux none (dumpChansL chs ++ rest) = some (chanToksL chs ++ ts) := by
  induction chs with
  | nil => intro rest ts h _ _; exact absurd rfl h
  | cons s t ih =>
    intro rest ts _ hall hrest
    rw [List.all_cons, Bool.and_eq_true] at hall
    obtain ⟨hs, ht⟩ := hall
    cases t with
    | nil =>
      rw [show dumpChansL [s] = dumpStrL s from rfl,
        tokAux_str s rest ts hs hrest]
      rfl
    | cons s2 t2 =>
      have hassoc : dumpChansL (s :: s2 :: t2) ++ rest =
          dumpStrL s ++ (',' :: ' ' :: (dumpChansL (s2 :: t2) ++ rest)) := by
        simp [dumpChansL, List.append_assoc]
      rw [hassoc]
      have h2 : tokAux none (',' :: ' ' :: (dumpChansL (s2 :: t2) ++ rest)) =
          some (Tok.comma :: (chanToksL (s2 :: t2) ++ ts)) := by
        rw [tokAux_comma, tokAux_ws, ih rest ts (by simp) ht hrest]
        rfl
      rw [tokAux_str s _ _ hs h2]
      rfl

theorem tokAux_entry (p : String × List String) (rest : List Char)
    (ts : List Tok) (hk : p.1.data.all plainChar = true)
    (hc : p.2.all (fun s => s.data.all plainChar) = true)
    (hrest : tokAux none rest = some ts) :
    tokAux none (dumpEntryL p ++ rest) = some (entryToks p ++ ts) := by
  have hassoc : dumpEntryL p ++ rest =
      dumpStrL p.1 ++ (':' :: ' ' :: '\x7b' :: (dumpStrL "channels" ++
        (':' :: ' ' :: '[' :: (dumpChansL p.2 ++
          (']' :: '\x7d' :: rest))))) := by
    simp [dumpEntryL, List.append_assoc]
  rw [hassoc]
  have h1 : tokAux none (']' :: '\x7d' :: rest) =
      some (Tok.rbracket :: Tok.rbrace :: ts) := by
    rw [tokAux_rbk, tokAux_rb, hrest]
    rfl
  have h2 : tokAux none (dumpChansL p.2 ++ (']' :: '\x7d' :: rest)) =
      some (chanToksL p.2 ++ Tok.rbracket :: Tok.rbrace :: ts) := by
    cases hp2 : p.2 with
    | nil => rw [show dumpChansL [] = [] from rfl, List.nil_append, h1]; rfl
    | cons a b => exact tokAux_chans (a :: b) _ _ (by simp) (hp2 ▸ hc) h1
  have h3 : tokAux none (':' :: ' ' :: '[' ::
      (dumpChansL p.2 ++ (']' :: '\x7d' :: rest))) =
      some (Tok.colon :: Tok.lbracket ::
        (chanToksL p.2 ++ Tok.rbracket :: Tok.rbrace :: ts)) := by
    rw [tokAux_colon, tokAux_ws, tokAux_lbk, h2]
    rfl
  have h4 : tokAux none (dumpStrL "channels" ++ (':' :: ' ' :: '[' ::
      (dumpChansL p.2 ++ (']' :: '\x7d' :: rest)))) =
      some (Tok.str "channels" :: Tok.colon :: Tok.lbracket ::
        (chanToksL p.2 ++ Tok.rbracket :: Tok.rbrace :: ts)) :=
    tokAux_str "channels" _ _ (by decide) h3
  have h5 : tokAux none (':' :: ' ' :: '\x7b' :: (dumpStrL "channels" ++
      (':' :: ' ' :: '[' :: (dumpChansL p.2 ++ (']' :: '\x7d' :: rest))))) =
      some (Tok.colon :: Tok.lbrace :: Tok.str "channels" :: Tok.colon ::
        Tok.lbracket ::
        (chanToksL p.2 ++ Tok.rbracket :: Tok.rbrace :: ts)) := by
    rw [tokAux_colon, tokAux_ws, tokAux_lb, h4]
    rfl
  rw [tokAux_str p.1 _ _ hk h5]
  simp [entryToks, List.append_assoc]

theorem tokAux_entries (d : UserDoc) :
    ∀ (rest : List Char) (ts : List Tok), d ≠ [] → plainDoc d = true →
      tokAux none rest = some ts →
      tokAux none (dumpEntriesL d ++ rest) =
        some (docEntriesToks d ++ ts) := by
  induction d with
  | nil => intro rest ts h _ _; exact absurd rfl h
  | cons p t ih =>
    intro rest ts _ hall hrest
    rw [plainDoc, List.all_cons, Bool.and_eq_true] at hall
    obtain ⟨hp, ht⟩ := hall
    rw [Bool.and_eq_true] at hp
    obtain ⟨hk, hc⟩ := hp
    cases t with
    | nil =>
      rw [show dumpEntriesL [p] = dumpEntryL p from rfl,
        tokAux_entry p rest ts hk hc hrest]
      rfl
    | cons q t2 =>
      have hassoc : dumpEntriesL (p :: q :: t2) ++ rest =
          dumpEntryL p ++ (',' :: ' ' :: (dumpEntriesL (q :: t2) ++ rest)) := by
        simp [dumpEntriesL, List.append_assoc]
      rw [hassoc]
      have h2 : tokAux none (',' :: ' ' ::
          (dumpEntriesL (q :: t2) ++ rest)) =
          some (Tok.comma :: (docEntriesToks (q :: t2) ++ ts)) := by
        rw [tokAux_comma, tokAux_ws, ih rest ts (by simp) ht hrest]
        rfl
      rw [tokAux_entry p _ _ hk hc h2]
      simp [docEntriesToks, List.append_assoc]

theorem tokenize_dumps (d : UserDoc) (h : plainDoc d = true) :
    tokenize (json_dumps d).data = some (docToks d) := by
  show tokAux none ('\x7b' :: (dumpEntriesL d ++ ['\x7d'])) = _
  rw [tokAux_lb]
  cases d with
  | nil => rfl
  | cons p t =>
    rw [tokAux_entries (p :: t) ['\x7d'] [Tok.rbrace] (by simp) h rfl]
    rfl

/-! ### Parser evaluation lemmas on canonical token lists -/

theorem parseItems_canonical (chs : List String) :
    ∀ (rest : List Tok), chs ≠ [] →
      parseItems (chanToksL chs ++ Tok.rbracket :: rest) =
        some (chs, rest) := by
  induction chs with
  | nil => intro rest h; exact absurd rfl h
  | cons s t ih =>
    intro rest _
    cases t with
    | nil => rfl
    | cons s2 t2 =>
      have hstep : parseItems (chanToksL (s :: s2 :: t2) ++
          Tok.rbracket :: rest) =
          (match parseItems (chanToksL (s2 :: t2) ++ Tok.rbracket :: rest)
            with
           | some (l, r) => some (s :: l, r)
           | none => none) := rfl
      rw [hstep, ih rest (by simp)]

theorem parseArray_canonical (chs : List String) (rest : List Tok) :
    parseArray (Tok.lbracket :: (chanToksL chs ++ Tok.rbracket :: rest)) =
      some (chs, rest) := by
  cases chs with
  | nil => rfl
  | cons s t =>
    rw [show parseArray (Tok.lbracket ::
        (chanToksL (s :: t) ++ Tok.rbracket :: rest)) =
        parseItems (chanToksL (s :: t) ++ Tok.rbracket :: rest) from by
      cases t <;> rfl]
    exact parseItems_canonical (s :: t) rest (by simp)

theorem parseEntries_canonical (d : UserDoc) :
    ∀ (rest : List Tok), d ≠ [] →
      parseEntries (docEntriesToks d ++ Tok.rbrace :: rest) =
        some (d, rest) := by
  induction d with
  | nil => intro rest h; exact absurd rfl h
  | cons p t ih =>
    intro rest _
    cases t with
    | nil =>
      have hassoc : docEntriesToks [p] ++ Tok.rbrace :: rest =
          Tok.str p.1 :: Tok.colon :: Tok.lbrace :: Tok.str "channels" ::
            Tok.colon :: (Tok.lbracket :: (chanToksL p.2 ++
              Tok.rbracket :: Tok.rbrace :: Tok.rbrace :: rest)) := by
        simp [docEntriesToks, entryToks, List.append_assoc]
      rw [hassoc]
      have harr := parseArray_canonical p.2
        (Tok.rbrace :: Tok.rbrace :: rest)
      simp only [parseEntries, if_true]
      rw [harr]
    | cons q t2 =>
      have hassoc : docEntriesToks (p :: q :: t2) ++ Tok.rbrace :: rest =
          Tok.str p.1 :: Tok.colon :: Tok.lbrace :: Tok.str "channels" ::
            Tok.colon :: (Tok.lbracket :: (chanToksL p.2 ++
              Tok.rbracket :: Tok.rbrace :: Tok.comma ::
                (docEntriesToks (q :: t2) ++ Tok.rbrace :: rest))) := by
        simp [docEntriesToks, entryToks, List.append_assoc]
      rw [hassoc]
      have harr := parseArray_canonical p.2 (Tok.rbrace :: Tok.comma ::
        (docEntriesToks (q :: t2) ++ Tok.rbrace :: rest))
      simp only [parseEntries, if_true]
      rw [harr]
      simp only []
      rw [ih rest (by simp)]

theorem parseDocRest_entries (rest : List Tok)
    (h : rest ≠ [Tok.rbrace]) :
    parseDocRest rest =
      (match parseEntries rest with
       | some (d, []) => some d
       | _ => none) := by
  unfold parseDocRest
  split
  · simp_all
  · rfl

theorem parseDoc_canonical (d : UserDoc) :
    parseDoc (docToks d) = some d := by
  cases d with
  | nil => rfl
  | cons p t =>
    rw [show parseDoc (docToks (p :: t)) =
      parseDocRest (docEntriesToks (p :: t) ++ [Tok.rbrace]) from rfl]
    have hne : docEntriesToks (p :: t) ++ [Tok.rbrace] ≠ [Tok.rbrace] := by
      cases t <;> simp [docEntriesToks, entryToks]
    rw [parseDocRest_entries _ hne,
      parseEntries_canonical (p :: t) [] (by simp)]

theorem json_loads_dumps (d : UserDoc) (h : plainDoc d = true) :
    json_loads (json_dumps d) = some d := by
  unfold json_loads
  rw [tokenize_dumps d h]
  exact parseDoc_canonical d

/-- C9 (counterexample): the claim "for every stored watchlist document,
save_data(load_data()) leaves the stored document unchanged" fails on a
stored document that is not in `json.dumps` canonical form: the bytes
`"{ }"` parse to the empty document, and saving writes back `"{}"`,
different bytes. -/
theorem load_save_roundtrip_counterexample :
    json_loads "\x7b \x7d" = some [] ∧
    save_data_of_load (some "\x7b \x7d") = "\x7b\x7d" ∧
    "\x7b\x7d" ≠ "\x7b \x7d" := by
  refine ⟨by decide, by decide, by decide⟩

/-- C9 (amended): for every stored watchlist document in the canonical
form the program itself writes — `json.dumps` of a parsed document whose
strings need no escapes — `save_data(load_data())` leaves the stored
bytes unchanged; a stored document in a different but equivalent JSON
spelling (extra whitespace, say) is rewritten to canonical form. -/
theorem load_save_roundtrip_canonical (d : UserDoc)
    (h : plainDoc d = true) :
    save_data_of_load (some (json_dumps d)) = json_dumps d := by
  unfold save_data_of_load
  have hne : (json_dumps d).isEmpty = false := by
    by_cases he : (json_dumps d).isEmpty
    · exfalso
      rw [String.isEmpty_iff] at he
      have hd := congrArg String.data he
      rw [show (json_dumps d).data =
        '\x7b' :: (dumpEntriesL d ++ ['\x7d']) from rfl] at hd
      simp at hd
    · rwa [Bool.not_eq_true] at he
  rw [show load_data (some (json_dumps d)) =
    if (json_dumps d).isEmpty then []
    else (json_loads (json_dumps d)).getD [] from rfl]
  rw [hne]
  simp only [Bool.false_eq_true, if_false]
  rw [json_loads_dumps d h]
  rfl

/-- C9 (witness). -/
theorem load_save_roundtrip_canonical_witness :
    save_data_of_load
        (some (json_dumps [("U1", ["eng", "random"]), ("U2", [])])) =
      json_dumps [("U1", ["eng", "random"]), ("U2", [])] :=
  load_save_roundtrip_canonical [("U1", ["eng", "random"]), ("U2", [])]
    (by decide)

end StagnantChecker
